import Mathlib

/-!
Verification of the phase-context switching core of a Phasic Policy Gradient
(PPG) implementation, consisting of `alf/algorithms/ppg_algorithm.py` and
`alf/utils/schedulers.py`.

The development is a shallow embedding: Python floats are modelled as exact
rationals (`ℚ`), the mutable attributes of the algorithm object are gathered
into an explicit state record that every operation maps functionally, and code
paths that raise a Python exception are modelled with `Except`.  External
collaborators (the encoding networks, the distribution utilities, the
generalized-advantage-estimation routine, the `absorbed` merge of train-info
records) are not part of the two translated files; where a property depends on
them they are modelled from the specification and marked so in the
corresponding doc comment.
-/

/-! ## Schedulers (`alf/utils/schedulers.py`)

`StepScheduler.__call__` and `LinearScheduler.__call__` both run a while loop
that advances a cached index `self._index` while the observed progress is at
least the breakpoint at the index (`StepScheduler` stops at `len - 1`,
`LinearScheduler` at `len`).  `advanceFuel`/`advanceIdx` embed that loop, with
the stopping bound as a parameter; the fuel argument is exactly the number of
iterations the loop can still make, so `advanceIdx` satisfies the loop's
step equation (`advanceIdx_eq`). -/

def advanceFuel (ps : List ℚ) (p : ℚ) (bound : ℕ) : ℕ → ℕ → ℕ
  | 0, i => i
  | fuel + 1, i =>
    if i < bound ∧ ps.getD i 0 ≤ p then advanceFuel ps p bound fuel (i + 1) else i

def advanceIdx (ps : List ℚ) (p : ℚ) (bound : ℕ) (i : ℕ) : ℕ :=
  advanceFuel ps p bound (bound - i) i

theorem advanceIdx_eq (ps : List ℚ) (p : ℚ) (bound i : ℕ) :
    advanceIdx ps p bound i =
      if i < bound ∧ ps.getD i 0 ≤ p then advanceIdx ps p bound (i + 1) else i := by
  unfold advanceIdx
  by_cases h : i < bound ∧ ps.getD i 0 ≤ p
  · have h1 : bound - i = (bound - (i + 1)) + 1 := by omega
    rw [h1]
    simp only [advanceFuel]
  · rw [if_neg h]
    rcases hb : bound - i with _ | n
    · rfl
    · simp only [advanceFuel]
      rw [if_neg h]

theorem le_advanceIdx (ps : List ℚ) (p : ℚ) (bound : ℕ) : ∀ i, i ≤ advanceIdx ps p bound i := by
  have key : ∀ fuel i, i ≤ advanceFuel ps p bound fuel i := by
    intro fuel
    induction fuel with
    | zero => intro i; simp [advanceFuel]
    | succ n ih =>
      intro i
      simp only [advanceFuel]
      split
      · exact Nat.le_of_succ_le (Nat.succ_le_of_lt (Nat.lt_of_lt_of_le (Nat.lt_succ_self i) (ih (i + 1))))
      · exact Nat.le_refl i
  intro i
  exact key (bound - i) i

theorem advanceIdx_le (ps : List ℚ) (p : ℚ) (bound : ℕ) :
    ∀ n i, bound - i ≤ n → advanceIdx ps p bound i ≤ max i bound := by
  intro n
  induction n with
  | zero =>
    intro i h
    have hc : ¬(i < bound ∧ ps.getD i 0 ≤ p) := by
      rintro ⟨h1, _⟩; omega
    rw [advanceIdx_eq, if_neg hc]
    exact Nat.le_max_left i bound
  | succ n ih =>
    intro i h
    rw [advanceIdx_eq]
    split
    · next hc =>
      have := ih (i + 1) (by omega)
      have hmax : max (i + 1) bound = bound := by omega
      omega
    · exact Nat.le_max_left i bound

theorem advanceIdx_stop (ps : List ℚ) (p : ℚ) (bound : ℕ) :
    ∀ n i, bound - i ≤ n →
      ¬(advanceIdx ps p bound i < bound ∧ ps.getD (advanceIdx ps p bound i) 0 ≤ p) := by
  intro n
  induction n with
  | zero =>
    intro i h
    have hc : ¬(i < bound ∧ ps.getD i 0 ≤ p) := by
      rintro ⟨h1, _⟩; omega
    rw [advanceIdx_eq, if_neg hc]
    exact hc
  | succ n ih =>
    intro i h
    rw [advanceIdx_eq]
    split
    · next hc => exact ih (i + 1) (by omega)
    · next hc => exact hc

theorem advanceIdx_skip (ps : List ℚ) (p : ℚ) (bound : ℕ) :
    ∀ n i j, bound - i ≤ n → i ≤ j → j < advanceIdx ps p bound i →
      (j < bound ∧ ps.getD j 0 ≤ p) := by
  intro n
  induction n with
  | zero =>
    intro i j h hij hlt
    have hc : ¬(i < bound ∧ ps.getD i 0 ≤ p) := by
      rintro ⟨h1, _⟩; omega
    rw [advanceIdx_eq, if_neg hc] at hlt
    omega
  | succ n ih =>
    intro i j h hij hlt
    rw [advanceIdx_eq] at hlt
    by_cases hc : i < bound ∧ ps.getD i 0 ≤ p
    · rw [if_pos hc] at hlt
      rcases Nat.eq_or_lt_of_le hij with rfl | hij'
      · exact hc
      · exact ih (i + 1) j (by omega) hij' hlt
    · rw [if_neg hc] at hlt
      omega

theorem advanceIdx_agree (ps : List ℚ) (p : ℚ) (bound j : ℕ) :
    ∀ n i, bound - i ≤ n → j ≤ i → i ≤ advanceIdx ps p bound j →
      advanceIdx ps p bound i = advanceIdx ps p bound j := by
  intro n
  induction n with
  | zero =>
    intro i h hji hiA
    have hc : ¬(i < bound ∧ ps.getD i 0 ≤ p) := by
      rintro ⟨h1, _⟩; omega
    rw [advanceIdx_eq, if_neg hc]
    rcases Nat.eq_or_lt_of_le hiA with heq | hlt
    · exact heq
    · exact absurd (advanceIdx_skip ps p bound (bound - j) j i (Nat.le_refl _) hji hlt) hc
  | succ n ih =>
    intro i h hji hiA
    rcases Nat.eq_or_lt_of_le hiA with heq | hlt
    · -- i is exactly the stopping index of the run from j, so the loop stops at i
      have hstop := advanceIdx_stop ps p bound (bound - j) j (Nat.le_refl _)
      rw [← heq] at hstop
      rw [advanceIdx_eq, if_neg hstop]
      exact heq
    · have hc := advanceIdx_skip ps p bound (bound - j) j i (Nat.le_refl _) hji hlt
      rw [advanceIdx_eq, if_pos hc]
      exact ih (i + 1) (by omega) (by omega) hlt

theorem advanceIdx_mono_bound (ps : List ℚ) (p q : ℚ) (bound j : ℕ) (hqp : q ≤ p) :
    ∀ n i, bound - i ≤ n → i ≤ advanceIdx ps p bound j →
      advanceIdx ps q bound i ≤ advanceIdx ps p bound j := by
  intro n
  induction n with
  | zero =>
    intro i h hiA
    have hc : ¬(i < bound ∧ ps.getD i 0 ≤ q) := by
      rintro ⟨h1, _⟩; omega
    rw [advanceIdx_eq, if_neg hc]
    exact hiA
  | succ n ih =>
    intro i h hiA
    rw [advanceIdx_eq]
    split
    · next hc =>
      -- the loop condition held at i for q, hence also for p, so i is not the
      -- stopping index of the run from j and the bound survives the step
      have hcp : i < bound ∧ ps.getD i 0 ≤ p := ⟨hc.1, le_trans hc.2 hqp⟩
      have hne : i ≠ advanceIdx ps p bound j := by
        intro heq
        exact advanceIdx_stop ps p bound (bound - j) j (Nat.le_refl _) (heq ▸ hcp)
      exact ih (i + 1) (by omega) (by omega)
    · next hc => exact hiA

/-! ### Scheduler state records -/

/-- State of `StepScheduler` (`schedulers.py` lines 79–121): the breakpoint
progresses and values from `zip(*schedule)`, the cached `_index`, and the
warm-up configuration. -/
structure StepSched where
  progresses : List ℚ
  values : List ℚ
  index : ℕ
  warm_up_period : ℚ
  start : ℚ
deriving DecidableEq

/-- Embedding of `StepScheduler.__call__` (lines 106–116).  The warm-up branch
returns `values[0] * max(progress - start, 0) / warm_up_period` without
touching `_index`; with `warm_up_period == 0` that division raises
`ZeroDivisionError`, modelled as `Except.error`.  The main branch advances the
cached index with the while loop (stopping bound `len(progresses) - 1`),
stores it, and returns `values[index]`. -/
def StepSched.call (s : StepSched) (p : ℚ) : Except Unit (StepSched × ℚ) :=
  if p < s.start + s.warm_up_period then
    if s.warm_up_period = 0 then Except.error ()
    else Except.ok (s, s.values.getD 0 0 * max (p - s.start) 0 / s.warm_up_period)
  else
    let i := advanceIdx s.progresses p (s.progresses.length - 1) s.index
    Except.ok ({ s with index := i }, s.values.getD i 0)

/-- The scheduler object after a call: the updated state on success, the
unchanged state when the call raised (the `ZeroDivisionError` fires before
`_index` is ever reassigned). -/
def StepSched.afterCall (s : StepSched) (p : ℚ) : StepSched :=
  match s.call p with
  | Except.ok r => r.1
  | Except.error _ => s

/-- The scheduler object after a whole history of observed progresses. -/
def StepSched.runCalls (s : StepSched) (hist : List ℚ) : StepSched :=
  hist.foldl StepSched.afterCall s

/-- The value returned by a call (discarding the state update). -/
def StepSched.callValue (s : StepSched) (p : ℚ) : Except Unit ℚ :=
  (s.call p).map Prod.snd

/-- State of `LinearScheduler` (lines 125–165): breakpoints, values and the
cached `_index`, which `__init__` sets to 1. -/
structure LinearSched where
  progresses : List ℚ
  values : List ℚ
  index : ℕ
deriving DecidableEq

/-- Embedding of `LinearScheduler.__call__` (lines 147–161).  The while loop
advances the cached index with stopping bound `len(progresses)`.  If it stops
inside the list the value is the linear interpolation between the two
surrounding breakpoints (a pair of equal breakpoints makes the divisor zero,
raising `ZeroDivisionError`); past the end, the index is decremented and the
last value returned.  The constructor establishes `index ≥ 1`, which keeps the
`index - 1` accesses in range. -/
def LinearSched.call (s : LinearSched) (p : ℚ) : Except Unit (LinearSched × ℚ) :=
  let i := advanceIdx s.progresses p s.progresses.length s.index
  if i < s.progresses.length then
    let denom := s.progresses.getD i 0 - s.progresses.getD (i - 1) 0
    if denom = 0 then Except.error ()
    else
      let w := (p - s.progresses.getD (i - 1) 0) / denom
      Except.ok ({ s with index := i },
        (1 - w) * s.values.getD (i - 1) 0 + w * s.values.getD i 0)
  else
    Except.ok ({ s with index := i - 1 }, s.values.getD (i - 1) 0)

/-- The `LinearScheduler` object after a call. -/
def LinearSched.afterCall (s : LinearSched) (p : ℚ) : LinearSched :=
  match s.call p with
  | Except.ok r => r.1
  | Except.error _ => s

/-- The `LinearScheduler` object after a whole history of observed progresses. -/
def LinearSched.runCalls (s : LinearSched) (hist : List ℚ) : LinearSched :=
  hist.foldl LinearSched.afterCall s

/-- The value returned by a `LinearScheduler` call. -/
def LinearSched.callValue (s : LinearSched) (p : ℚ) : Except Unit ℚ :=
  (s.call p).map Prod.snd

/-- State of `ExponentialScheduler` (lines 169–194): three constants and no
mutable attribute. -/
structure ExpSched where
  initial_value : ℚ
  decay_rate : ℚ
  decay_time : ℚ
deriving DecidableEq

/-- Embedding of `ExponentialScheduler.__call__` (lines 186–189), which
returns `initial_value * decay_rate ** (progress / decay_time)`.  Python's
float `**` is not rational-valued, so it is passed in as an arbitrary fixed
function `rpow`; the claims about this scheduler concern only its statefulness,
which does not depend on the numeric values. -/
def ExpSched.call (rpow : ℚ → ℚ → ℚ) (s : ExpSched) (p : ℚ) : ExpSched × ℚ :=
  (s, s.initial_value * rpow s.decay_rate (p / s.decay_time))

/-- The `ExponentialScheduler` object after a whole history of calls. -/
def ExpSched.runCalls (rpow : ℚ → ℚ → ℚ) (s : ExpSched) (hist : List ℚ) : ExpSched :=
  hist.foldl (fun t q => (ExpSched.call rpow t q).1) s

/-! ### Scheduler construction and progress (`Scheduler.__init__`,
`Scheduler.progress`, `LinearScheduler.__init__`) -/

/-- The progress accessor selected by `Scheduler.__init__`. -/
inductive ProgressType where
  | percent
  | iterations
  | env_steps
  | global_counter
deriving DecidableEq

/-- Embedding of `Scheduler.__init__` (lines 38–58): the four recognized
`progress_type` strings select an accessor; any other string raises
`ValueError("Unknown progress_type: ...")`, so no scheduler object is
produced. -/
def Scheduler.init (progress_type : String) : Except String ProgressType :=
  if progress_type = "percent" then Except.ok ProgressType.percent
  else if progress_type = "iterations" then Except.ok ProgressType.iterations
  else if progress_type = "env_steps" then Except.ok ProgressType.env_steps
  else if progress_type = "global_counter" then Except.ok ProgressType.global_counter
  else Except.error ("Unknown progress_type: " ++ progress_type)

/-- Outcome of querying the underlying progress accessor
(`self._progress_func()` followed by `float(...)`): a value, an
`AssertionError` (the trainer is not yet initialized), or any other
exception. -/
inductive ProgressOutcome where
  | val (v : ℚ)
  | assertion_error
  | other_error (msg : String)

/-- Embedding of `Scheduler.progress` (lines 60–64): the `try` block returns
the accessor's value; `except AssertionError` returns 0; any other exception
propagates. -/
def Scheduler.progress (progress_func : ProgressOutcome) : Except String ℚ :=
  match progress_func with
  | ProgressOutcome.val v => Except.ok v
  | ProgressOutcome.assertion_error => Except.ok 0
  | ProgressOutcome.other_error e => Except.error e

/-- Embedding of `LinearScheduler.__init__` (lines 128–145): `super().__init__`
validates the progress type; `assert schedule[0][0] == 0` raises `IndexError`
on an empty schedule and `AssertionError` when the first breakpoint is not at
progress 0; a schedule shorter than two pairs raises; otherwise the state is
built with `_index = 1`. -/
def LinearScheduler.init (progress_type : String) (schedule : List (ℚ × ℚ)) :
    Except String (ProgressType × LinearSched) :=
  match Scheduler.init progress_type with
  | Except.error e => Except.error e
  | Except.ok pt =>
    match schedule with
    | [] => Except.error "IndexError: list index out of range"
    | (p0, _) :: _ =>
      if p0 = 0 then
        if 2 ≤ schedule.length then
          Except.ok (pt,
            { progresses := schedule.map Prod.fst
              values := schedule.map Prod.snd
              index := 1 })
        else Except.error "There should be at least two (progress, value) pairs"
      else Except.error "The first progress for linear scheduler must be 0."

/-! ### Statefulness lemmas for the scheduler calls -/

theorem stepAfterCall_fields (s : StepSched) (q : ℚ) :
    (s.afterCall q).progresses = s.progresses ∧ (s.afterCall q).values = s.values ∧
    (s.afterCall q).warm_up_period = s.warm_up_period ∧ (s.afterCall q).start = s.start := by
  unfold StepSched.afterCall StepSched.call
  split_ifs with h1 h2
  · exact ⟨rfl, rfl, rfl, rfl⟩
  · exact ⟨rfl, rfl, rfl, rfl⟩
  · exact ⟨rfl, rfl, rfl, rfl⟩

theorem stepAfterCall_index_le (p : ℚ) (s : StepSched) (q : ℚ) (hq : q ≤ p)
    (hs : s.index ≤ advanceIdx s.progresses p (s.progresses.length - 1) 0) :
    (s.afterCall q).index ≤ advanceIdx s.progresses p (s.progresses.length - 1) 0 := by
  unfold StepSched.afterCall StepSched.call
  split_ifs with h1 h2
  · exact hs
  · exact hs
  · exact advanceIdx_mono_bound s.progresses p q (s.progresses.length - 1) 0 hq
      (s.progresses.length - 1 - s.index) s.index (Nat.le_refl _) hs

theorem stepRunCalls_inv (p : ℚ) :
    ∀ (hist : List ℚ) (s : StepSched), (∀ q ∈ hist, q ≤ p) →
      s.index ≤ advanceIdx s.progresses p (s.progresses.length - 1) 0 →
      (s.runCalls hist).progresses = s.progresses ∧
      (s.runCalls hist).values = s.values ∧
      (s.runCalls hist).warm_up_period = s.warm_up_period ∧
      (s.runCalls hist).start = s.start ∧
      (s.runCalls hist).index ≤ advanceIdx s.progresses p (s.progresses.length - 1) 0 := by
  intro hist
  induction hist with
  | nil => intro s _ hs; exact ⟨rfl, rfl, rfl, rfl, hs⟩
  | cons q hist ih =>
    intro s h hs
    have hq : q ≤ p := h q (List.mem_cons_self q hist)
    have hf := stepAfterCall_fields s q
    have hidx := stepAfterCall_index_le p s q hq hs
    have ih' := ih (s.afterCall q) (fun r hr => h r (List.mem_cons_of_mem q hr))
      (by rw [hf.1]; exact hidx)
    simp only [StepSched.runCalls, List.foldl_cons] at *
    exact ⟨by rw [ih'.1, hf.1], by rw [ih'.2.1, hf.2.1],
      by rw [ih'.2.2.1, hf.2.2.1], by rw [ih'.2.2.2.1, hf.2.2.2],
      by rw [← hf.1]; exact ih'.2.2.2.2⟩

theorem step_callValue_agree (p : ℚ) (s t : StepSched)
    (hps : t.progresses = s.progresses) (hvs : t.values = s.values)
    (hw : t.warm_up_period = s.warm_up_period) (hst : t.start = s.start)
    (hts : t.index ≤ advanceIdx s.progresses p (s.progresses.length - 1) 0)
    (hs0 : s.index = 0) :
    t.callValue p = s.callValue p := by
  unfold StepSched.callValue StepSched.call
  rw [hps, hvs, hw, hst, hs0]
  have hagree : advanceIdx s.progresses p (s.progresses.length - 1) t.index
      = advanceIdx s.progresses p (s.progresses.length - 1) 0 :=
    advanceIdx_agree s.progresses p (s.progresses.length - 1) 0
      (s.progresses.length - 1 - t.index) t.index (Nat.le_refl _) (Nat.zero_le _) hts
  rw [hagree]
  split_ifs with h1 h2 <;> simp [Except.map]

theorem linAfterCall_inv (p : ℚ) (s : LinearSched) (q : ℚ) (hq : q ≤ p)
    (hlen : 2 ≤ s.progresses.length) (h1 : 1 ≤ s.index)
    (hA : s.index ≤ advanceIdx s.progresses p s.progresses.length 1) :
    (s.afterCall q).progresses = s.progresses ∧ (s.afterCall q).values = s.values ∧
    1 ≤ (s.afterCall q).index ∧
    (s.afterCall q).index ≤ advanceIdx s.progresses p s.progresses.length 1 := by
  have hle : advanceIdx s.progresses q s.progresses.length s.index
      ≤ advanceIdx s.progresses p s.progresses.length 1 :=
    advanceIdx_mono_bound s.progresses p q s.progresses.length 1 hq
      (s.progresses.length - s.index) s.index (Nat.le_refl _) hA
  have hlow := le_advanceIdx s.progresses q s.progresses.length s.index
  simp only [LinearSched.afterCall, LinearSched.call]
  split_ifs with hi hd
  · exact ⟨rfl, rfl, h1, hA⟩
  · exact ⟨rfl, rfl, le_trans h1 hlow, hle⟩
  · refine ⟨rfl, rfl, ?_, ?_⟩
    · have h3 : 1 ≤ advanceIdx s.progresses q s.progresses.length s.index - 1 := by omega
      exact h3
    · have h4 : advanceIdx s.progresses q s.progresses.length s.index - 1
          ≤ advanceIdx s.progresses p s.progresses.length 1 := by omega
      exact h4

theorem linRunCalls_inv (p : ℚ) :
    ∀ (hist : List ℚ) (s : LinearSched), (∀ q ∈ hist, q ≤ p) →
      2 ≤ s.progresses.length → 1 ≤ s.index →
      s.index ≤ advanceIdx s.progresses p s.progresses.length 1 →
      (s.runCalls hist).progresses = s.progresses ∧
      (s.runCalls hist).values = s.values ∧
      1 ≤ (s.runCalls hist).index ∧
      (s.runCalls hist).index ≤ advanceIdx s.progresses p s.progresses.length 1 := by
  intro hist
  induction hist with
  | nil => intro s _ _ h1 hA; exact ⟨rfl, rfl, h1, hA⟩
  | cons q hist ih =>
    intro s h hlen h1 hA
    have hq : q ≤ p := h q (List.mem_cons_self q hist)
    have hstep := linAfterCall_inv p s q hq hlen h1 hA
    have ih' := ih (s.afterCall q) (fun r hr => h r (List.mem_cons_of_mem q hr))
      (by rw [hstep.1]; exact hlen) hstep.2.2.1 (by rw [hstep.1]; exact hstep.2.2.2)
    simp only [LinearSched.runCalls, List.foldl_cons] at *
    exact ⟨by rw [ih'.1, hstep.1], by rw [ih'.2.1, hstep.2.1], ih'.2.2.1,
      by rw [← hstep.1]; exact ih'.2.2.2⟩

theorem lin_callValue_agree (p : ℚ) (s t : LinearSched)
    (hps : t.progresses = s.progresses) (hvs : t.values = s.values)
    (h1t : 1 ≤ t.index)
    (hts : t.index ≤ advanceIdx s.progresses p s.progresses.length 1)
    (hs1 : s.index = 1) :
    t.callValue p = s.callValue p := by
  unfold LinearSched.callValue LinearSched.call
  rw [hps, hvs, hs1]
  have hagree : advanceIdx s.progresses p s.progresses.length t.index
      = advanceIdx s.progresses p s.progresses.length 1 :=
    advanceIdx_agree s.progresses p s.progresses.length 1
      (s.progresses.length - t.index) t.index (Nat.le_refl _) h1t hts
  rw [hagree]

/-! ### Concrete scheduler instances for the counterexample -/

/-- A `StepScheduler('...', [(2, 10), (4, 20)])` right after construction. -/
def stepCexInit : StepSched :=
  { progresses := [2, 4], values := [10, 20], index := 0, warm_up_period := 0, start := 0 }

/-- The same scheduler object after it has observed progress 3. -/
def stepCexAfter : StepSched := { stepCexInit with index := 1 }

/-- A `LinearScheduler('...', [(0, 0), (2, 20), (4, 20)])` right after
construction. -/
def linCexInit : LinearSched := { progresses := [0, 2, 4], values := [0, 20, 20], index := 1 }

/-- The same scheduler object after it has observed progress 3. -/
def linCexAfter : LinearSched := { linCexInit with index := 2 }

/-- C4 counterexample: the scheduled value is not a pure function of the
observed progress.  On one and the same `StepScheduler` instance, a call
observing progress 1 returns 10 before the instance has seen progress 3 and
returns 20 afterwards, because the cached `_index` only ever advances; the
same happens on a `LinearScheduler` (10 before, 20 after). -/
theorem scheduler_value_not_pure_cex :
    stepCexInit.call 1 = Except.ok (stepCexInit, 10) ∧
    stepCexInit.call 3 = Except.ok (stepCexAfter, 20) ∧
    stepCexAfter.call 1 = Except.ok (stepCexAfter, 20) ∧
    linCexInit.call 1 = Except.ok (linCexInit, 10) ∧
    linCexInit.call 3 = Except.ok (linCexAfter, 20) ∧
    linCexAfter.call 1 = Except.ok (linCexAfter, 20) ∧
    (10 : ℚ) ≠ 20 := by
  refine ⟨?_, ?_, ?_, ?_, ?_, ?_, by norm_num⟩ <;>
    norm_num [stepCexInit, stepCexAfter, linCexInit, linCexAfter, StepSched.call,
      LinearSched.call, advanceIdx, advanceFuel, List.getD]

/-- C4 (amended): `ExponentialScheduler` keeps no mutable state, so its value
is a pure function of the observed progress regardless of history.
`StepScheduler` and `LinearScheduler` cache a breakpoint index that only
advances, so a call's value agrees with the value a freshly constructed
instance would return only as long as no earlier call observed a strictly
greater progress (in particular under the intended monotonically
non-decreasing training progress); the counterexample shows the value can
differ otherwise. -/
theorem schedulers_value_pure_under_monotone_progress :
    (∀ (rpow : ℚ → ℚ → ℚ) (s : ExpSched) (hist : List ℚ) (p : ℚ),
        ExpSched.call rpow (ExpSched.runCalls rpow s hist) p = ExpSched.call rpow s p)
  ∧ (∀ (s : StepSched) (hist : List ℚ) (p : ℚ), s.index = 0 → (∀ q ∈ hist, q ≤ p) →
        (s.runCalls hist).callValue p = s.callValue p)
  ∧ (∀ (s : LinearSched) (hist : List ℚ) (p : ℚ), s.index = 1 →
        2 ≤ s.progresses.length → (∀ q ∈ hist, q ≤ p) →
        (s.runCalls hist).callValue p = s.callValue p) := by
  refine ⟨?_, ?_, ?_⟩
  · intro rpow s hist p
    have hrun : ExpSched.runCalls rpow s hist = s := by
      induction hist with
      | nil => rfl
      | cons q hist ih =>
        simp only [ExpSched.runCalls, List.foldl_cons, ExpSched.call] at *
        exact ih
    rw [hrun]
  · intro s hist p hs0 hh
    have inv := stepRunCalls_inv p hist s hh (by rw [hs0]; exact Nat.zero_le _)
    exact step_callValue_agree p s (s.runCalls hist)
      inv.1 inv.2.1 inv.2.2.1 inv.2.2.2.1 inv.2.2.2.2 hs0
  · intro s hist p hs1 hlen hh
    have inv := linRunCalls_inv p hist s hh hlen (by omega)
      (by rw [hs1]; exact le_advanceIdx s.progresses p s.progresses.length 1)
    exact lin_callValue_agree p s (s.runCalls hist)
      inv.1 inv.2.1 inv.2.2.1 inv.2.2.2 hs1

/-- Witness for the amended C4 theorem at concrete schedulers: after observing
progress 1 (which never exceeds the later progress 3), both a
`StepScheduler` and a `LinearScheduler` still return the fresh-instance value
at progress 3. -/
theorem schedulers_value_pure_under_monotone_progress_witness :
    (StepSched.runCalls stepCexInit [1]).callValue 3 = stepCexInit.callValue 3 ∧
    (LinearSched.runCalls linCexInit [1]).callValue 3 = linCexInit.callValue 3 :=
  ⟨schedulers_value_pure_under_monotone_progress.2.1 stepCexInit [1] 3 rfl
      (by intro q hq; rw [List.mem_singleton] at hq; subst hq; norm_num),
   schedulers_value_pure_under_monotone_progress.2.2 linCexInit [1] 3 rfl
      (by norm_num [linCexInit])
      (by intro q hq; rw [List.mem_singleton] at hq; subst hq; norm_num)⟩

/-- C9: construction-time configuration errors are fatal.  `Scheduler.__init__`
raises `ValueError` on any string other than the four recognized progress
types, and `LinearScheduler.__init__` raises when the first schedule
breakpoint is not at progress 0 or the schedule has fewer than two pairs; in
every such case the constructor returns an error and no scheduler state is
produced. -/
theorem scheduler_construction_errors :
    (∀ s : String, s ≠ "percent" → s ≠ "iterations" → s ≠ "env_steps" →
        s ≠ "global_counter" →
        Scheduler.init s = Except.error ("Unknown progress_type: " ++ s))
  ∧ (∀ (pt : String) (schedule : List (ℚ × ℚ)),
        schedule.length < 2 ∨ (schedule.headD (0, 0)).1 ≠ 0 →
        ∃ e, LinearScheduler.init pt schedule = Except.error e) := by
  constructor
  · intro s h1 h2 h3 h4
    unfold Scheduler.init
    rw [if_neg h1, if_neg h2, if_neg h3, if_neg h4]
  · intro pt schedule hbad
    unfold LinearScheduler.init
    cases hpt : Scheduler.init pt with
    | error e => exact ⟨e, rfl⟩
    | ok t =>
      cases schedule with
      | nil => exact ⟨_, rfl⟩
      | cons hd tl =>
        obtain ⟨p0, v0⟩ := hd
        simp only [List.length_cons, List.headD_cons] at hbad
        dsimp only
        split_ifs with hp0 hlen2
        · exfalso
          rcases hbad with h | h
          · simp only [List.length_cons] at hlen2
            omega
          · exact h hp0
        · exact ⟨_, rfl⟩
        · exact ⟨_, rfl⟩

/-- Witness for C9 at concrete inputs: an unknown progress-type string is
rejected, and a linear schedule whose first breakpoint progress is 1 (not 0)
is rejected. -/
theorem scheduler_construction_errors_witness :
    Scheduler.init "bogus" = Except.error ("Unknown progress_type: " ++ "bogus") ∧
    ∃ e, LinearScheduler.init "percent" [(1, 2)] = Except.error e :=
  ⟨scheduler_construction_errors.1 "bogus" (by decide) (by decide) (by decide) (by decide),
   scheduler_construction_errors.2 "percent" [(1, 2)] (Or.inr (by norm_num))⟩

/-- C10: `Scheduler.progress` returns 0 when the underlying progress accessor
raises `AssertionError` (so every scheduler evaluates as if training progress
were 0 before the trainer is initialized), returns the accessor's value
otherwise, and lets any other exception propagate. -/
theorem scheduler_progress_assertion_fallback :
    Scheduler.progress ProgressOutcome.assertion_error = Except.ok 0
  ∧ (∀ v, Scheduler.progress (ProgressOutcome.val v) = Except.ok v)
  ∧ (∀ e, Scheduler.progress (ProgressOutcome.other_error e) = Except.error e) :=
  ⟨rfl, fun _ => rfl, fun _ => rfl⟩

/-! ## PPG algorithm (`alf/algorithms/ppg_algorithm.py`)

The mutable attributes of a `PPGAlgorithm` object (`_policy_phase`,
`_aux_phase`, `_active_phase`, the base class's `_exp_replayer`,
`_experience_spec`, and the contents of the auxiliary replay buffer) are
gathered into the state record `PPGAlg`; every method is embedded as a
function from that state.  `_active_phase` holds a reference to one of the two
context objects, modelled as a `PhaseId` tag resolved by `PPGAlg.activeContext`.
Replay buffers are external objects; the externally visible `_exp_replayer`
reference is modelled as an optional buffer id, and the contents of the
auxiliary phase's own buffer (the only one this file writes to) as the list
`PPGAlg.aux_buffer`. -/

/-- An action distribution, represented by its parameters.  The distribution
object itself is produced by the external network layers; only its parameters
matter to the translated code. -/
structure ActionDist where
  params : ℚ
deriving DecidableEq

/-- A tensor value together with its autograd tracking flag. -/
structure TVal where
  val : ℚ
  requires_grad : Bool
deriving DecidableEq

/-- Modelled from the spec: `common.detach` is an external utility; detaching
a tensor keeps its value and removes it from gradient tracking
(spec §3, RolloutInfo carries the "sampled action (detached from gradient
tracking)"). -/
def detach (a : TVal) : TVal := { a with requires_grad := false }

/-- Modelled from the spec: `dist_utils.sample_action_distribution` is an
external utility that samples an action from the predicted action
distribution; its randomness source is made explicit as a `coin` argument.
Sampled actions come out of the network graph, hence gradient-tracked. -/
def sample_action_distribution (d : ActionDist) (coin : ℚ) : TVal :=
  { val := d.params + coin, requires_grad := true }

/-- Modelled from the spec: the argmax (mode) of the action distribution, used
by epsilon-greedy sampling when the coin does not select sampling
(spec §4.1: "probability `epsilon` of sampling, else argmax"). -/
def argmax_action_distribution (d : ActionDist) : TVal :=
  { val := d.params, requires_grad := true }

/-- Modelled from the spec: `dist_utils.epsilon_greedy_sample` is an external
utility; with probability `epsilon` it samples from the distribution and
otherwise takes the argmax (spec §4.1).  The probabilistic choice is made
explicit through the `coin` argument. -/
def epsilon_greedy_sample (d : ActionDist) (epsilon : ℚ) (coin : ℚ) : TVal :=
  if coin < epsilon then sample_action_distribution d coin
  else argmax_action_distribution d

/-- The fields of a `TimeStep` used by the translated code.  `untransformed`
is the raw-observation payload that `_observe_for_aux_replay` clears (`()` is
modelled as `none`). -/
structure ModelTimeStep where
  observation : ℚ
  untransformed : Option ℚ
  step_type : ℕ
  discount : ℚ
  reward : ℚ
deriving DecidableEq

/-- The architecture of a network: a function from parameters, observation and
recurrent state to `((action_distribution, value, aux_value), new_state)`.
Modelled from the spec (§6): the network abstraction is an external
collaborator, so the architecture is an arbitrary function; its trainable
parameters, the part the translated code copies around, are explicit. -/
def NetArch : Type := List ℚ → ℚ → ℚ → (ActionDist × ℚ × ℚ) × ℚ

/-- A `DisjointPolicyValueNetwork`: trainable parameters plus the (external)
architecture. -/
structure DisjointPolicyValueNetwork where
  params : List ℚ
  arch : NetArch

/-- Calling the network: `self._network(observation, state=state)`. -/
def DisjointPolicyValueNetwork.forward (n : DisjointPolicyValueNetwork)
    (observation : ℚ) (state : ℚ) : (ActionDist × ℚ × ℚ) × ℚ :=
  n.arch n.params observation state

/-- `state_dict()`: the current parameter values, read out by value. -/
def DisjointPolicyValueNetwork.state_dict (n : DisjointPolicyValueNetwork) : List ℚ :=
  n.params

/-- `load_state_dict(sd)`: overwrite this network's parameters with the values
in `sd`.  Torch's `load_state_dict` copies tensor values into the destination
network's own storage (`copy_`), so it is a value update that introduces no
sharing with the source. -/
def DisjointPolicyValueNetwork.load_state_dict (n : DisjointPolicyValueNetwork)
    (sd : List ℚ) : DisjointPolicyValueNetwork :=
  { n with params := sd }

/-- `PPGRolloutInfo` as built by `network_forward` (lines 158–166). -/
structure PPGRolloutInfo where
  action_distribution : ActionDist
  action : TVal
  value : ℚ
  aux : ℚ
  step_type : ℕ
  discount : ℚ
  reward : ℚ
  reward_weights : Unit
deriving DecidableEq

/-- `AlgStep` with a `PPGRolloutInfo` payload. -/
structure AlgStep where
  output : TVal
  state : ℚ
  info : PPGRolloutInfo
deriving DecidableEq

/-- The fields of a loss object read by the translated code: `PPOLoss.gamma`
and `PPOLoss._lambda` (`lam` here, since `_lambda` reads better than a
keyword-adjacent name).  The loss computation itself is external. -/
structure LossCfg where
  gamma : ℚ
  lam : ℚ
deriving DecidableEq

/-- `PPGPhaseContext` (lines 36–107): the per-phase network, loss and optional
replay buffer (`None` means the orchestrator's main buffer).  The optimizer
registration is a side effect on the external base class and carries no state
read by the translated code. -/
structure PPGPhaseContext where
  network : DisjointPolicyValueNetwork
  loss : LossCfg
  exp_replayer : Option ℕ

/-- `PPGPhaseContext.on_context_switch_from` (lines 109–123):
`self._network.load_state_dict(previous_context._network.state_dict())`. -/
def PPGPhaseContext.on_context_switch_from (self prev : PPGPhaseContext) : PPGPhaseContext :=
  { self with network := self.network.load_state_dict prev.network.state_dict }

/-- `PPGPhaseContext.network_forward` (lines 125–166): run the network, sample
the action (strictly from the distribution when `epsilon_greedy` is `None`,
epsilon-greedily otherwise), and assemble the `AlgStep` whose info record
stores the detached action. -/
def PPGPhaseContext.network_forward (ctx : PPGPhaseContext) (inputs : ModelTimeStep)
    (state : ℚ) (coin : ℚ) (epsilon_greedy : Option ℚ) : AlgStep :=
  let fwd := ctx.network.forward inputs.observation state
  let action := match epsilon_greedy with
    | some e => epsilon_greedy_sample fwd.1.1 e coin
    | none => sample_action_distribution fwd.1.1 coin
  { output := action
    state := fwd.2
    info :=
      { action_distribution := fwd.1.1
        action := detach action
        value := fwd.1.2.1
        aux := fwd.1.2.2
        step_type := inputs.step_type
        discount := inputs.discount
        reward := inputs.reward
        reward_weights := () } }

/-- Which of the two phase contexts `_active_phase` refers to. -/
inductive PhaseId where
  | policy
  | aux
deriving DecidableEq

/-- Modelled from the spec: `make_experience` (external
`alf.data_structures`) bundles the time step, the rollout step and the
recurrent state into one experience record. -/
structure Experience where
  time_step : ModelTimeStep
  policy_step : AlgStep
  state : Option ℚ
deriving DecidableEq

/-- Modelled from the spec: constructing the experience record from a time
step, the policy's `AlgStep`, and the rollout state. -/
def make_experience (time_step : ModelTimeStep) (policy_step : AlgStep)
    (state : ℚ) : Experience :=
  { time_step := time_step, policy_step := policy_step, state := some state }

/-- Modelled from the spec: the structural shape of an experience (which
optional payloads are present), as recorded by
`dist_utils.extract_spec` (spec §4.2: "the experience's structural shape
('spec') is recorded and frozen"). -/
structure ExpSpec where
  has_untransformed : Bool
  has_state : Bool
deriving DecidableEq

/-- Modelled from the spec: extract the structural shape of an experience. -/
def extract_spec (e : Experience) : ExpSpec :=
  { has_untransformed := e.time_step.untransformed.isSome
    has_state := e.state.isSome }

/-- An experience as stored in the replay buffer, after
`dist_utils.distributions_to_params` replaced the distribution object by its
parameters. -/
structure StoredExperience where
  time_step : ModelTimeStep
  dist_params : ℚ
  action : TVal
  value : ℚ
  aux : ℚ
  state : Option ℚ
deriving DecidableEq

/-- Modelled from the spec: `dist_utils.distributions_to_params` (external)
converts the distribution objects inside an experience into their
parameters, leaving every other field as it is. -/
def distributions_to_params (e : Experience) : StoredExperience :=
  { time_step := e.time_step
    dist_params := e.policy_step.info.action_distribution.params
    action := e.policy_step.info.action
    value := e.policy_step.info.value
    aux := e.policy_step.info.aux
    state := e.state }

/-- The state of a `PPGAlgorithm` object. -/
structure PPGAlg where
  policy_phase : PPGPhaseContext
  aux_phase : PPGPhaseContext
  active_phase : PhaseId
  exp_replayer : Option ℕ
  experience_spec : Option ExpSpec
  aux_buffer : List StoredExperience
  use_rollout_state : Bool
  predict_step_epsilon_greedy : ℚ
  aux_phase_interval : ℕ

/-- Resolve the `_active_phase` reference to the context it points at. -/
def PPGAlg.activeContext (st : PPGAlg) : PPGPhaseContext :=
  match st.active_phase with
  | PhaseId.policy => st.policy_phase
  | PhaseId.aux => st.aux_phase

/-- Embedding of `PPGAlgorithm.__init__` (lines 190–287) restricted to the
state the translated methods read.  The policy context uses the freshly built
network and the main replay buffer (`None`); the auxiliary context uses the
network's copy (externally initialized parameters, passed in as
`aux_params`) and its own `OnetimeExperienceReplayer`.  `epsilon_greedy`
falls back to the driver-level configuration value
`TrainerConfig.epsilon_greedy` when the constructor argument is `None`
(lines 253–256), and the initial active phase is the policy phase
(line 287). -/
def mkPPGAlgorithm (arch : NetArch) (policy_params aux_params : List ℚ)
    (policy_loss aux_loss : LossCfg) (aux_replayer_id : ℕ)
    (main_exp_replayer : Option ℕ) (aux_phase_interval : ℕ)
    (epsilon_greedy : Option ℚ) (config_epsilon_greedy : ℚ)
    (use_rollout_state : Bool) : PPGAlg :=
  { policy_phase :=
      { network := { params := policy_params, arch := arch }
        loss := policy_loss
        exp_replayer := none }
    aux_phase :=
      { network := { params := aux_params, arch := arch }
        loss := aux_loss
        exp_replayer := some aux_replayer_id }
    active_phase := PhaseId.policy
    exp_replayer := main_exp_replayer
    experience_spec := none
    aux_buffer := []
    use_rollout_state := use_rollout_state
    predict_step_epsilon_greedy := epsilon_greedy.getD config_epsilon_greedy
    aux_phase_interval := aux_phase_interval }

/-- The state just before the body of `aux_phase_activated` runs (lines
302–309): the auxiliary context has inherited the policy network's weights,
`_active_phase` points at the auxiliary context, and the externally visible
`_exp_replayer` has been shadowed by the auxiliary context's replay buffer
(the saved `previous_exp_replayer` is the untouched pre-switch value). -/
def auxPreBodyState (st : PPGAlg) : PPGAlg :=
  let st1 := { st with aux_phase := st.aux_phase.on_context_switch_from st.policy_phase }
  let st2 := { st1 with active_phase := PhaseId.aux }
  { st2 with exp_replayer := st2.aux_phase.exp_replayer }

/-- The `finally` block of `aux_phase_activated` (lines 310–314): the policy
context inherits the auxiliary network's weights, `_active_phase` is restored
to the policy context, and `_exp_replayer` is restored to the saved value. -/
def auxFinallyRestore (previous_exp_replayer : Option ℕ) (st : PPGAlg) : PPGAlg :=
  let st1 := { st with policy_phase := st.policy_phase.on_context_switch_from st.aux_phase }
  { st1 with active_phase := PhaseId.policy, exp_replayer := previous_exp_replayer }

/-- A body for the scoped phase switch: driver code that transforms the
algorithm state and may raise, in which case it reports the exception together
with the state at the point of the raise. -/
def AuxBody : Type := PPGAlg → Except (String × PPGAlg) PPGAlg

/-- Embedding of the context manager `PPGAlgorithm.aux_phase_activated`
(lines 289–314).  The `try` block resynchronizes the auxiliary network,
activates the auxiliary phase and shadows `_exp_replayer`, then yields to the
body; the `finally` block runs on both the normal and the exceptional exit,
after which an exception from the body keeps propagating. -/
def aux_phase_activated (body : AuxBody) (st : PPGAlg) : Except (String × PPGAlg) PPGAlg :=
  let previous_exp_replayer := st.exp_replayer
  match body (auxPreBodyState st) with
  | Except.ok st2 => Except.ok (auxFinallyRestore previous_exp_replayer st2)
  | Except.error (e, st2) => Except.error (e, auxFinallyRestore previous_exp_replayer st2)

/-- Embedding of `PPGAlgorithm.after_train_iter` (lines 420–437).  The global
counter is the external `alf.summary.get_global_counter()` value, passed in
explicitly; `train_from_replay_buffer` is the external base-class training
entry point, whose first argument is `update_global_counter` (the call site
passes `False`).  The returned flag records whether the auxiliary phase was
entered. -/
def after_train_iter (st : PPGAlg) (counter : ℕ)
    (train_from_replay_buffer : Bool → PPGAlg → PPGAlg) : PPGAlg × Bool :=
  if counter % st.aux_phase_interval = 0 then
    match aux_phase_activated (fun s => Except.ok (train_from_replay_buffer false s)) st with
    | Except.ok st2 => (st2, true)
    | Except.error (_, st2) => (st2, true)
  else (st, false)

/-- Embedding of `PPGAlgorithm._observe_for_aux_replay` (lines 320–344):
clear the `untransformed` payload from the time step, build the experience,
drop the state unless `_use_rollout_state`, record `_experience_spec` if it is
not yet set, convert distributions to parameters and append the result to the
auxiliary phase's replay buffer. -/
def observe_for_aux_replay (st : PPGAlg) (inputs : ModelTimeStep) (state : ℚ)
    (policy_step : AlgStep) : PPGAlg :=
  let lite_time_step := { inputs with untransformed := none }
  let exp := make_experience lite_time_step policy_step state
  let exp2 := if st.use_rollout_state then exp else { exp with state := none }
  let new_spec := match st.experience_spec with
    | none => some (extract_spec exp2)
    | some sp => some sp
  { st with
    experience_spec := new_spec
    aux_buffer := st.aux_buffer ++ [distributions_to_params exp2] }

/-- Embedding of `PPGAlgorithm.rollout_step` (lines 346–356): evaluate the
policy context's network (no exploration parameter), store the experience for
the auxiliary replay buffer, and return the policy step. -/
def rollout_step (st : PPGAlg) (inputs : ModelTimeStep) (state : ℚ) (coin : ℚ) :
    AlgStep × PPGAlg :=
  let policy_step := st.policy_phase.network_forward inputs state coin none
  (policy_step, observe_for_aux_replay st inputs state policy_step)

/-- Embedding of `PPGAlgorithm.predict_step` (lines 415–418): evaluate the
active phase's network with the stored `_predict_step_epsilon_greedy`. -/
def predict_step (st : PPGAlg) (inputs : ModelTimeStep) (state : ℚ) (coin : ℚ) : AlgStep :=
  st.activeContext.network_forward inputs state coin (some st.predict_step_epsilon_greedy)

/-! ### `preprocess_experience` (lines 358–401)

The hook receives batched `[B, T]` tensors; the embedding models one batch
row as lists of length `T` (the multi-dimensional-reward branch at line 378
is out of scope, matching the TODO at line 169 of the source).  The external
`value_ops.generalized_advantage_estimation` routine is passed in as an
argument of type `GAERoutine`; per the spec (§4.2 and §8) it produces the
`T - 1` per-step advantages of a length-`T` trajectory, to which the code
appends a zero terminal step. -/

/-- A batch row of `PPGRolloutInfo` over a trajectory: one list entry per time
step. -/
structure PPGRolloutInfoSeq where
  action_distribution : List ActionDist
  action : List TVal
  value : List ℚ
  aux : List ℚ
  step_type : List ℕ
  discount : List ℚ
  reward : List ℚ
deriving DecidableEq

/-- A batch row of `PPGTrainInfo`: the fields `preprocess_experience` sets
plus the fields absorbed from the rollout info. -/
structure PPGTrainInfoSeq where
  action : List TVal
  rollout_action_distribution : List ActionDist
  returns : List ℚ
  advantages : List ℚ
  value : List ℚ
  aux : List ℚ
  step_type : List ℕ
  discount : List ℚ
  reward : List ℚ
deriving DecidableEq

/-- Modelled from the spec: `PPGTrainInfo.absorbed(rollout_info)` (external
`alf.algorithms.ppg`) merges the rollout info into the train info so that the
result "absorbs all fields of the input rollout_info" (spec §3, §4.2) and is
self-contained for loss computation. -/
def PPGTrainInfoSeq.absorbed (t : PPGTrainInfoSeq) (r : PPGRolloutInfoSeq) : PPGTrainInfoSeq :=
  { t with
    value := r.value
    aux := r.aux
    step_type := r.step_type
    discount := r.discount
    reward := r.reward }

/-- Modelled from the spec: `tensor_utils.tensor_extend_zero(x, dim=1)`
(external) appends one zero-filled time step at the end of the trajectory
("Appends a zero-padded final timestep to the advantage sequence",
spec §4.2). -/
def tensor_extend_zero (xs : List ℚ) : List ℚ := xs ++ [0]

/-- The signature of the external advantage-estimation routine
(spec §6): `(rewards, values, step_types, discounts, td_lambda) →
advantages`, with `time_major=False` fixed by the call site. -/
def GAERoutine : Type := List ℚ → List ℚ → List ℕ → List ℚ → ℚ → List ℚ

/-- Embedding of `PPGAlgorithm.preprocess_experience` (lines 358–401) on one
batch row with a scalar reward: scale the rollout discounts by the *policy*
context's loss `gamma`, run the advantage estimation with the *policy*
context's loss `_lambda`, append the zero terminal advantage, derive
`returns = value + advantages`, and build the train info that absorbs the
rollout info. -/
def preprocess_experience (st : PPGAlg) (gae : GAERoutine) (inputs : List ModelTimeStep)
    (rollout_info : PPGRolloutInfoSeq) : List ModelTimeStep × PPGTrainInfoSeq :=
  let gamma := st.policy_phase.loss.gamma
  let discounts := rollout_info.discount.map (· * gamma)
  let td_lambda := st.policy_phase.loss.lam
  let advantages :=
    gae rollout_info.reward rollout_info.value rollout_info.step_type discounts td_lambda
  let advantages := tensor_extend_zero advantages
  let returns := List.zipWith (· + ·) rollout_info.value advantages
  (inputs,
    PPGTrainInfoSeq.absorbed
      { action := rollout_info.action
        rollout_action_distribution := rollout_info.action_distribution
        returns := returns
        advantages := advantages
        value := []
        aux := []
        step_type := []
        discount := []
        reward := [] }
      rollout_info)

/-! ### Concrete instances used by witnesses and counterexamples -/

/-- A concrete architecture: the distribution parameter is the first network
parameter plus the observation, so that networks with different parameters
are observably different. -/
def archW : NetArch := fun ps obs state =>
  (({ params := ps.headD 0 + obs }, ps.sum, ps.headD 0), state)

/-- A freshly constructed algorithm: policy network parameters `[1]`, the
copy initialized at `[2]`, auxiliary replay buffer id 7, main buffer id 3,
interval 32, no explicit `epsilon_greedy` (so the configuration value `1/10`
is used). -/
def ppgW : PPGAlg :=
  mkPPGAlgorithm archW [1] [2] { gamma := 9/10, lam := 1/2 } { gamma := 1, lam := 1 }
    7 (some 3) 32 none (1/10) false

/-- The same algorithm while the auxiliary phase is active. -/
def ppgAux : PPGAlg := { ppgW with active_phase := PhaseId.aux }

/-- The same algorithm after `_experience_spec` has been recorded. -/
def ppgSpecSet : PPGAlg :=
  { ppgW with experience_spec := some { has_untransformed := false, has_state := false } }

/-- A concrete time step carrying an `untransformed` payload. -/
def tsW : ModelTimeStep :=
  { observation := 0, untransformed := some 5, step_type := 0, discount := 1, reward := 0 }

/-- A body for the scoped phase switch that raises immediately. -/
def bodyFailW : AuxBody := fun s => Except.error ("boom", s)

/-- A stub for the external `train_from_replay_buffer` entry point. -/
def trainFromReplayW : Bool → PPGAlg → PPGAlg := fun _ s => s

/-! ### Claim theorems about the PPG orchestrator -/

/-- C1: for every body passed to the scoped auxiliary-phase switch
`aux_phase_activated`, after the scope exits — on the normal exit and on the
exceptional one alike — `_active_phase` is the policy context and the
externally visible `_exp_replayer` equals its pre-switch value, and an
exception raised by the body still propagates to the caller after this
restore. -/
theorem aux_phase_activated_restores (body : AuxBody) (st : PPGAlg) :
    (∀ st2, aux_phase_activated body st = Except.ok st2 →
        st2.active_phase = PhaseId.policy ∧ st2.exp_replayer = st.exp_replayer)
  ∧ (∀ e st2, aux_phase_activated body st = Except.error (e, st2) →
        st2.active_phase = PhaseId.policy ∧ st2.exp_replayer = st.exp_replayer)
  ∧ (∀ e st2, body (auxPreBodyState st) = Except.error (e, st2) →
        aux_phase_activated body st =
          Except.error (e, auxFinallyRestore st.exp_replayer st2)) := by
  unfold aux_phase_activated
  cases hb : body (auxPreBodyState st) with
  | ok s =>
    refine ⟨?_, ?_, ?_⟩
    · intro st2 h
      injection h with heq
      subst heq
      exact ⟨rfl, rfl⟩
    · intro e st2 h
      exact Except.noConfusion h
    · intro e st2 h
      exact Except.noConfusion h
  | error es =>
    obtain ⟨e0, s0⟩ := es
    refine ⟨?_, ?_, ?_⟩
    · intro st2 h
      exact Except.noConfusion h
    · intro e st2 h
      injection h with h2
      injection h2 with he hs
      subst he
      subst hs
      exact ⟨rfl, rfl⟩
    · intro e st2 h
      injection h with h2
      injection h2 with he hs
      subst he
      subst hs
      rfl

/-- Witness for C1 at a concrete state and a body that raises: the scope
reports the body's exception with the restored state, whose active phase is
the policy context and whose visible replay buffer is the pre-switch one. -/
theorem aux_phase_activated_restores_witness :
    aux_phase_activated bodyFailW ppgW =
      Except.error ("boom", auxFinallyRestore ppgW.exp_replayer (auxPreBodyState ppgW)) ∧
    (auxFinallyRestore ppgW.exp_replayer (auxPreBodyState ppgW)).active_phase = PhaseId.policy ∧
    (auxFinallyRestore ppgW.exp_replayer (auxPreBodyState ppgW)).exp_replayer
      = ppgW.exp_replayer := by
  have H := (aux_phase_activated_restores bodyFailW ppgW).2.2 "boom" (auxPreBodyState ppgW) rfl
  exact ⟨H, (aux_phase_activated_restores bodyFailW ppgW).2.1 "boom" _ H⟩

theorem countP_multiples (k : ℕ) (_hk : 0 < k) :
    ∀ N : ℕ, (List.range (N + 1)).countP (fun c => c % k == 0) = N / k + 1 := by
  intro N
  induction N with
  | zero => simp [List.range_succ, Nat.zero_mod]
  | succ n ih =>
    rw [List.range_succ, List.countP_append, ih]
    rw [Nat.succ_div]
    by_cases hdvd : k ∣ (n + 1)
    · have hm : (n + 1) % k = 0 := Nat.dvd_iff_mod_eq_zero.mp hdvd
      simp [hdvd, hm, List.countP_cons]
    · have hm : (n + 1) % k ≠ 0 := fun h => hdvd (Nat.dvd_of_mod_eq_zero h)
      simp [hdvd, hm, List.countP_cons]

/-- C2: with a positive configured interval, `after_train_iter` enters the
auxiliary phase exactly when the global counter is a multiple of the
interval; on entry it invokes the scoped phase switch around
`train_from_replay_buffer(update_global_counter=False)`; and over the counter
values `0..N` the auxiliary phase is entered `N / interval + 1` times. -/
theorem after_train_iter_trigger (st : PPGAlg)
    (train_from_replay_buffer : Bool → PPGAlg → PPGAlg)
    (hpos : 0 < st.aux_phase_interval) :
    (∀ c, (after_train_iter st c train_from_replay_buffer).2 = true ↔
        c % st.aux_phase_interval = 0)
  ∧ (∀ c, c % st.aux_phase_interval = 0 →
        after_train_iter st c train_from_replay_buffer =
          (auxFinallyRestore st.exp_replayer
            (train_from_replay_buffer false (auxPreBodyState st)), true))
  ∧ (∀ N, (List.range (N + 1)).countP
        (fun c => (after_train_iter st c train_from_replay_buffer).2)
      = N / st.aux_phase_interval + 1) := by
  have hpt : ∀ c, (after_train_iter st c train_from_replay_buffer).2
      = (c % st.aux_phase_interval == 0) := by
    intro c
    unfold after_train_iter
    by_cases hc : c % st.aux_phase_interval = 0
    · simp [hc, aux_phase_activated]
    · simp [hc]
  refine ⟨?_, ?_, ?_⟩
  · intro c
    rw [hpt c]
    simp
  · intro c hc
    unfold after_train_iter
    rw [if_pos hc]
    rfl
  · intro N
    have hcong : (List.range (N + 1)).countP
          (fun c => (after_train_iter st c train_from_replay_buffer).2)
        = (List.range (N + 1)).countP (fun c => c % st.aux_phase_interval == 0) := by
      apply List.countP_congr
      intro c _
      rw [hpt c]
    rw [hcong]
    exact countP_multiples st.aux_phase_interval hpos N

/-- Witness for C2 at a concrete algorithm (interval 32): counter 64 triggers
the auxiliary phase, and over the counters 0..8 the phase is entered exactly
once (at counter 0). -/
theorem after_train_iter_trigger_witness :
    ((after_train_iter ppgW 64 trainFromReplayW).2 = true ↔ 64 % ppgW.aux_phase_interval = 0)
  ∧ (List.range (8 + 1)).countP (fun c => (after_train_iter ppgW c trainFromReplayW).2)
      = 8 / ppgW.aux_phase_interval + 1 := by
  have H := after_train_iter_trigger ppgW trainFromReplayW
    (by norm_num [ppgW, mkPPGAlgorithm])
  exact ⟨H.1 64, H.2.2 8⟩

/-- C3 counterexample: `predict_step` does not always evaluate the policy
context's network.  On a concrete algorithm whose two networks hold different
parameters and whose orchestrator is in the `AUX_ACTIVE` state (line 417 reads
`self._active_phase`, not `self._policy_phase`), the predicted action differs
from the one the policy context's `network_forward` produces. -/
theorem predict_step_not_policy_cex :
    (predict_step ppgAux tsW 0 0).output.val ≠
      (ppgAux.policy_phase.network_forward tsW 0 0
        (some ppgAux.predict_step_epsilon_greedy)).output.val := by
  norm_num [predict_step, PPGAlg.activeContext, ppgAux, ppgW, mkPPGAlgorithm,
    PPGPhaseContext.network_forward, DisjointPolicyValueNetwork.forward, archW,
    epsilon_greedy_sample, sample_action_distribution, argmax_action_distribution, tsW,
    Option.getD, detach]

/-- C3 (amended): `predict_step` evaluates the *active* phase context's
`network_forward` — which is the policy context whenever the orchestrator is
in its `POLICY_ACTIVE` state, i.e. always outside the scoped auxiliary
switch — with the exploration parameter stored at construction time: the
explicit `epsilon_greedy` constructor argument, or the driver-level
configuration default when that argument is `None`. -/
theorem predict_step_uses_active_phase :
    (∀ (st : PPGAlg) (inputs : ModelTimeStep) (state coin : ℚ),
        predict_step st inputs state coin =
          st.activeContext.network_forward inputs state coin
            (some st.predict_step_epsilon_greedy))
  ∧ (∀ (st : PPGAlg) (inputs : ModelTimeStep) (state coin : ℚ),
        st.active_phase = PhaseId.policy →
        predict_step st inputs state coin =
          st.policy_phase.network_forward inputs state coin
            (some st.predict_step_epsilon_greedy))
  ∧ (∀ arch pp ap pl al arid mer intv (e : ℚ) ce urs,
        (mkPPGAlgorithm arch pp ap pl al arid mer intv (some e) ce
            urs).predict_step_epsilon_greedy = e
        ∧ (mkPPGAlgorithm arch pp ap pl al arid mer intv (some e) ce
            urs).active_phase = PhaseId.policy)
  ∧ (∀ arch pp ap pl al arid mer intv ce urs,
        (mkPPGAlgorithm arch pp ap pl al arid mer intv none ce
            urs).predict_step_epsilon_greedy = ce) := by
  refine ⟨fun _ _ _ _ => rfl, ?_, fun _ _ _ _ _ _ _ _ _ _ _ => ⟨rfl, rfl⟩,
    fun _ _ _ _ _ _ _ _ _ _ => rfl⟩
  intro st inputs state coin h
  unfold predict_step PPGAlg.activeContext
  rw [h]

/-- Witness for the amended C3 at a concrete state in the `POLICY_ACTIVE`
phase: there `predict_step` is exactly the policy context's forward pass. -/
theorem predict_step_uses_active_phase_witness :
    predict_step ppgW tsW 0 0 =
      ppgW.policy_phase.network_forward tsW 0 0 (some ppgW.predict_step_epsilon_greedy) :=
  predict_step_uses_active_phase.2.1 ppgW tsW 0 0 rfl

/-- Mutating one context's network parameters in place (for example one
optimizer step), leaving everything else alone. -/
def mutateNetParams (c : PPGPhaseContext) (f : List ℚ → List ℚ) : PPGPhaseContext :=
  { c with network := { c.network with params := f c.network.params } }

/-- C5: `on_context_switch_from` copies every parameter value of the source
network into the destination network, leaves the source context untouched and
the destination's loss and replay buffer untouched, and leaves the two
networks non-aliased: a subsequent mutation of either network's parameters
(any update `f`, e.g. an optimizer step) does not change the other's. -/
theorem on_context_switch_from_resync (st : PPGAlg) :
    (∀ self prev : PPGPhaseContext,
        (self.on_context_switch_from prev).network.params = prev.network.params)
  ∧ (let st2 := { st with aux_phase := st.aux_phase.on_context_switch_from st.policy_phase }
     st2.aux_phase.network.params = st.policy_phase.network.params
     ∧ st2.policy_phase = st.policy_phase
     ∧ st2.aux_phase.loss = st.aux_phase.loss
     ∧ st2.aux_phase.exp_replayer = st.aux_phase.exp_replayer
     ∧ (∀ f, ({ st2 with aux_phase :=
            mutateNetParams st2.aux_phase f }).policy_phase.network.params
          = st.policy_phase.network.params)
     ∧ (∀ f, ({ st2 with policy_phase :=
            mutateNetParams st2.policy_phase f }).aux_phase.network.params
          = st.policy_phase.network.params)) :=
  ⟨fun _ _ => rfl, rfl, rfl, rfl, rfl, fun _ => rfl, fun _ => rfl⟩

/-- C6: `preprocess_experience` feeds the advantage-estimation routine the
policy context's loss `gamma` (scaling the rollout discounts) and `_lambda`
in every phase, appends the zero terminal step so the advantage sequence has
length `T` and ends in 0, derives `returns = value + advantages` elementwise,
and produces a train info that absorbs every field of the rollout info; the
result does not depend on any part of the algorithm state other than the
policy context's loss configuration (in particular not on the active phase or
the auxiliary loss). -/
theorem preprocess_experience_spec (st : PPGAlg) (gae : GAERoutine)
    (inputs : List ModelTimeStep) (ri : PPGRolloutInfoSeq) (T : ℕ)
    (hT : 0 < T) (hval : ri.value.length = T)
    (hlen : (gae ri.reward ri.value ri.step_type
        (ri.discount.map (· * st.policy_phase.loss.gamma)) st.policy_phase.loss.lam).length
      = T - 1) :
    let out := (preprocess_experience st gae inputs ri).2
    out.advantages =
      gae ri.reward ri.value ri.step_type
        (ri.discount.map (· * st.policy_phase.loss.gamma)) st.policy_phase.loss.lam ++ [0]
    ∧ out.advantages.length = T
    ∧ out.advantages.getLast? = some 0
    ∧ out.returns = List.zipWith (· + ·) ri.value out.advantages
    ∧ out.returns.length = T
    ∧ out.action = ri.action
    ∧ out.rollout_action_distribution = ri.action_distribution
    ∧ out.value = ri.value ∧ out.aux = ri.aux ∧ out.step_type = ri.step_type
    ∧ out.discount = ri.discount ∧ out.reward = ri.reward
    ∧ (∀ st2 : PPGAlg, st2.policy_phase.loss = st.policy_phase.loss →
        preprocess_experience st2 gae inputs ri = preprocess_experience st gae inputs ri) := by
  intro out
  have hadv : out.advantages =
      gae ri.reward ri.value ri.step_type
        (ri.discount.map (· * st.policy_phase.loss.gamma)) st.policy_phase.loss.lam ++ [0] :=
    rfl
  have hlen2 : out.advantages.length = T := by
    rw [hadv, List.length_append, hlen]
    simp
    omega
  refine ⟨rfl, hlen2, ?_, rfl, ?_, rfl, rfl, rfl, rfl, rfl, rfl, rfl, ?_⟩
  · rw [hadv]
    exact List.getLast?_concat _
  · have : (List.zipWith (· + ·) ri.value out.advantages).length = T := by
      rw [List.length_zipWith, hval, hlen2]
      exact Nat.min_self T
    exact this
  · intro st2 h2
    unfold preprocess_experience
    rw [h2]

/-- The advantage routine used by the C6 witness: the right number of zero
advantages. -/
def gaeW : GAERoutine := fun rewards _ _ _ _ => List.replicate (rewards.length - 1) 0

/-- A concrete two-step rollout info batch row. -/
def riW : PPGRolloutInfoSeq :=
  { action_distribution := [{ params := 0 }, { params := 0 }]
    action := [{ val := 0, requires_grad := false }, { val := 0, requires_grad := false }]
    value := [5, 7]
    aux := [0, 0]
    step_type := [0, 2]
    discount := [1, 0]
    reward := [1, 3] }

/-- Witness for C6 on a concrete two-step trajectory: the advantage sequence
has length 2 and ends in the zero terminal advantage. -/
theorem preprocess_experience_spec_witness :
    (preprocess_experience ppgW gaeW [] riW).2.advantages.length = 2 ∧
    (preprocess_experience ppgW gaeW [] riW).2.advantages.getLast? = some 0 := by
  have H := preprocess_experience_spec ppgW gaeW [] riW 2 (by norm_num) rfl rfl
  exact ⟨H.2.1, H.2.2.1⟩

/-- The lite experience `_observe_for_aux_replay` builds before it is stored:
the time step with its `untransformed` payload cleared, the policy step, and
the rollout state unless `_use_rollout_state` is off. -/
def rollout_lite_experience (st : PPGAlg) (inputs : ModelTimeStep) (state : ℚ)
    (policy_step : AlgStep) : Experience :=
  let exp := make_experience { inputs with untransformed := none } policy_step state
  if st.use_rollout_state then exp else { exp with state := none }

/-- C7: in every orchestrator phase state, `rollout_step` evaluates the policy
context's network (its result is the policy context's forward pass, never the
active phase's), appends to the auxiliary replay buffer exactly one
experience whose `untransformed` payload is cleared, records
`_experience_spec` from that experience when it was unset, and never
overwrites an already-recorded `_experience_spec`. -/
theorem rollout_step_spec (st : PPGAlg) (inputs : ModelTimeStep) (state coin : ℚ) :
    ((rollout_step st inputs state coin).1 =
        st.policy_phase.network_forward inputs state coin none)
  ∧ ((rollout_step st inputs state coin).2.aux_buffer =
        st.aux_buffer ++ [distributions_to_params (rollout_lite_experience st inputs state
          (st.policy_phase.network_forward inputs state coin none))])
  ∧ ((distributions_to_params (rollout_lite_experience st inputs state
        (st.policy_phase.network_forward inputs state coin none))).time_step.untransformed
      = none)
  ∧ (st.experience_spec = none →
      (rollout_step st inputs state coin).2.experience_spec =
        some (extract_spec (rollout_lite_experience st inputs state
          (st.policy_phase.network_forward inputs state coin none))))
  ∧ (∀ sp, st.experience_spec = some sp →
      (rollout_step st inputs state coin).2.experience_spec = some sp) := by
  refine ⟨rfl, ?_, ?_, ?_, ?_⟩
  · cases h : st.use_rollout_state <;>
      simp [rollout_step, observe_for_aux_replay, rollout_lite_experience, h]
  · cases h : st.use_rollout_state <;>
      simp [rollout_lite_experience, make_experience, distributions_to_params, h]
  · intro hsp
    cases h : st.use_rollout_state <;>
      simp [rollout_step, observe_for_aux_replay, rollout_lite_experience, h, hsp]
  · intro sp hsp
    simp [rollout_step, observe_for_aux_replay, hsp]

/-- Witness for C7: on a fresh algorithm the spec is recorded from the first
append; on an algorithm with a recorded spec the spec is kept unchanged. -/
theorem rollout_step_spec_witness :
    (rollout_step ppgW tsW 0 0).2.experience_spec =
      some (extract_spec (rollout_lite_experience ppgW tsW 0
        (ppgW.policy_phase.network_forward tsW 0 0 none))) ∧
    (rollout_step ppgSpecSet tsW 0 0).2.experience_spec =
      some { has_untransformed := false, has_state := false } :=
  ⟨(rollout_step_spec ppgW tsW 0 0).2.2.2.1 rfl,
   (rollout_step_spec ppgSpecSet tsW 0 0).2.2.2.2
     { has_untransformed := false, has_state := false } rfl⟩

/-- C8: `network_forward` samples the action from the predicted distribution
when no exploration parameter is supplied and epsilon-greedily (sample when
the coin falls below `epsilon`, argmax otherwise) when one is; the action
stored in the returned rollout info is the output action detached from
gradient tracking. -/
theorem network_forward_sampling (ctx : PPGPhaseContext) (inputs : ModelTimeStep)
    (state coin : ℚ) :
    ((ctx.network_forward inputs state coin none).output =
        sample_action_distribution (ctx.network.forward inputs.observation state).1.1 coin)
  ∧ (∀ e, (ctx.network_forward inputs state coin (some e)).output =
        epsilon_greedy_sample (ctx.network.forward inputs.observation state).1.1 e coin)
  ∧ (∀ d e c, c < e → epsilon_greedy_sample d e c = sample_action_distribution d c)
  ∧ (∀ d e c, ¬c < e → epsilon_greedy_sample d e c = argmax_action_distribution d)
  ∧ (∀ eg, (ctx.network_forward inputs state coin eg).info.action =
        detach (ctx.network_forward inputs state coin eg).output)
  ∧ (∀ eg, (ctx.network_forward inputs state coin eg).info.action.requires_grad = false) := by
  refine ⟨rfl, fun e => rfl, ?_, ?_, fun eg => rfl, fun eg => rfl⟩
  · intro d e c h
    simp [epsilon_greedy_sample, h]
  · intro d e c h
    simp [epsilon_greedy_sample, h]

/-- Witness for C8's epsilon-greedy clauses at concrete inputs: a coin below
epsilon selects sampling, a coin above selects the argmax. -/
theorem network_forward_sampling_witness :
    epsilon_greedy_sample { params := 2 } (1/2) 0 = sample_action_distribution { params := 2 } 0
  ∧ epsilon_greedy_sample { params := 2 } (1/2) 1 = argmax_action_distribution { params := 2 } := by
  have H := network_forward_sampling
    { network := { params := [1], arch := archW }, loss := { gamma := 1, lam := 1 },
      exp_replayer := none } tsW 0 0
  exact ⟨H.2.2.1 { params := 2 } (1/2) 0 (by norm_num),
    H.2.2.2.1 { params := 2 } (1/2) 1 (by norm_num)⟩
